import Mathlib

/-!
Shallow embedding of the log-to-timeline visualizer (`src/main.rs`).

The program reads a log file line by line, matches each line against a
regular expression, decodes the captured fields, merges them into a
two-level ordered span store (`BTreeMap<ConnectionId, BTreeMap<RequestId,
Span>>`), tracks the smallest and largest observed timestamps, and finally
walks the store in key order emitting one report row per span.

Modelling choices:
* A log line is represented after the regex stage: `Option Captures`, where
  `none` is a line the regex did not match and `Captures` holds the text of
  the named capture groups.  The datetime capture is represented by its
  digit groups (`DtParts`), which carry exactly the information content of
  a string matching the shape `\d4-\d2-\d2T\d2:\d2:\d2.\d+Z` required by
  the regex; digit-run captures (`request_id`, `status`) are represented by
  their numeric values, which is all that `str::parse` inspects on a string
  of decimal digits (leading zeros change neither the value nor success).
* Timestamps are nanoseconds since the Unix epoch as unbounded `Int`
  (chrono `DateTime<FixedOffset>` compares by instant at nanosecond
  precision); `timestamp_millis` is floor division by 10^6.
* Machine integers: `u32`/`u8` parsing checks the numeric bound explicitly;
  `i64::saturating_sub` clamps to the `i64` range.
* `BTreeMap` is embedded as an association list kept strictly sorted by
  key, with an insert-or-update operation mirroring the `entry` API.
* The `.expect` panics on field decoding are embedded as `Except.error`.
-/

/-! ## Date-time parsing (collaborator)

Modelled from the spec: the date-time parser collaborator of §6 ("a
date-time parser accepting a fixed timestamped-with-offset textual
format", chrono `DateTime::parse_from_rfc3339`), which is not part of this
repository.  The regex only admits the `Z`-suffixed shape, so the offset is
always zero; parsing succeeds exactly when the digit groups form a valid
calendar date and time of day, and yields the instant as nanoseconds since
the Unix epoch (civil-day arithmetic in proleptic Gregorian). -/

structure DtParts where
  year : Nat
  month : Nat
  day : Nat
  hour : Nat
  minute : Nat
  second : Nat
  nanos : Nat
deriving DecidableEq

def isLeapYear (y : Nat) : Bool :=
  (y % 4 == 0 && y % 100 != 0) || y % 400 == 0

def daysInMonth (y m : Nat) : Nat :=
  if m = 2 then (if isLeapYear y then 29 else 28)
  else if m = 4 ∨ m = 6 ∨ m = 9 ∨ m = 11 then 30
  else 31

def DtParts.valid (d : DtParts) : Bool :=
  1 ≤ d.month && d.month ≤ 12 &&
  1 ≤ d.day && d.day ≤ daysInMonth d.year d.month &&
  d.hour ≤ 23 && d.minute ≤ 59 && d.second ≤ 59 && d.nanos < 1000000000

def daysFromCivil (y m d : Int) : Int :=
  let y := if m ≤ 2 then y - 1 else y
  let era := (if 0 ≤ y then y else y - 399).fdiv 400
  let yoe := y - era * 400
  let doy := ((153 * (if 2 < m then m - 3 else m + 9) + 2).fdiv 5) + d - 1
  let doe := yoe * 365 + yoe.fdiv 4 - yoe.fdiv 100 + doy
  era * 146097 + doe - 719468

def DtParts.toNanos (d : DtParts) : Int :=
  (daysFromCivil d.year d.month d.day * 86400
      + d.hour * 3600 + d.minute * 60 + d.second) * 1000000000
    + d.nanos

def parseDatetime (d : DtParts) : Option Int :=
  if d.valid then some d.toNanos else none

/-! ## Field decoding -/

/-- Capture groups of one regex-matched line (`find_sync` in `main.rs`):
required `datetime`, `connection_id`, `request_id`, `method`, `uri`;
optional `request_size`, `status`, `response_size`. -/
structure Captures where
  datetime : DtParts
  connectionId : String
  requestId : Nat
  method : String
  uri : String
  requestSize : Option String
  status : Option Nat
  responseSize : Option String
deriving DecidableEq

/-- `str::parse::<u32>()` on a run of decimal digits with value `n`:
succeeds exactly when the value fits in 32 bits. -/
def parseU32 (n : Nat) : Option Nat :=
  if n < 4294967296 then some n else none

/-- `str::parse::<u8>()` on a run of decimal digits with value `n`:
succeeds exactly when the value fits in 8 bits (`Span.status : Option<u8>`). -/
def parseU8 (n : Nat) : Option Nat :=
  if n ≤ 255 then some n else none

/-- A fully decoded event: the data handed to the span store for one
matched line, after `datetime` and `request_id` parsed successfully. -/
structure LogEvent where
  timestamp : Int
  connectionId : String
  requestId : Nat
  method : String
  uri : String
  requestSize : Option String
  status : Option Nat
  responseSize : Option String
deriving DecidableEq

def Captures.toEvent (c : Captures) (ts : Int) (rid : Nat) : LogEvent :=
  { timestamp := ts
    connectionId := c.connectionId
    requestId := rid
    method := c.method
    uri := c.uri
    requestSize := c.requestSize
    status := c.status
    responseSize := c.responseSize }

/-! ## Spans and the span store -/

/-- `struct Span` of `main.rs` (`status: Option<u8>` holds values ≤ 255;
`start_at` and `duration` in nanoseconds). -/
structure Span where
  status : Option Nat
  method : String
  uri : String
  requestSize : Option String
  responseSize : Option String
  startAt : Int
  duration : Int
deriving DecidableEq

/-- The `Entry::Vacant` branch: insert a span populated from the event,
except that `status` is initialized to `None` (the code writes
`status: None` even when the event captured a status), start at the event
timestamp, duration zero. -/
def Span.create (e : LogEvent) : Span :=
  { status := none
    method := e.method
    uri := e.uri
    requestSize := e.requestSize
    responseSize := e.responseSize
    startAt := e.timestamp
    duration := 0 }

/-- The `Entry::Occupied` branch: overwrite `status` only when the event
carries one that parses as `u8`; recompute `duration` from scratch as
`event timestamp − start_at`; overwrite each size only when carried;
`method`, `uri`, `start_at` untouched. -/
def Span.update (s : Span) (e : LogEvent) : Span :=
  { s with
    status :=
      match e.status with
      | some v =>
        match parseU8 v with
        | some u => some u
        | none => s.status
      | none => s.status
    duration := e.timestamp - s.startAt
    requestSize :=
      match e.requestSize with
      | some r => some r
      | none => s.requestSize
    responseSize :=
      match e.responseSize with
      | some r => some r
      | none => s.responseSize }

/-- Inner `BTreeMap<RequestId, Span>` as an association list strictly
sorted by key. -/
abbrev ConnSpans := List (Nat × Span)

/-- Outer `BTreeMap<ConnectionId, BTreeMap<RequestId, Span>>`. -/
abbrev Store := List (String × ConnSpans)

/-- `spans_for_connection_id.entry(request_id)`: create the span on a
vacant entry, update it on an occupied one, keeping keys sorted
(`BTreeMap` insertion). -/
def recordRequest (rid : Nat) (e : LogEvent) : ConnSpans → ConnSpans
  | [] => [(rid, Span.create e)]
  | (k, s) :: rest =>
    if rid < k then (rid, Span.create e) :: (k, s) :: rest
    else if rid = k then (k, Span.update s e) :: rest
    else (k, s) :: recordRequest rid e rest

/-- Rust `Ord` on `String`: lexicographic on the code-point sequence
(identical to the bytewise order of the UTF-8 encoding), as used by
`BTreeMap<ConnectionId, _>`. -/
def charListLt : List Char → List Char → Bool
  | _, [] => false
  | [], _ :: _ => true
  | a :: as, b :: bs =>
    if a.toNat < b.toNat then true
    else if b.toNat < a.toNat then false
    else charListLt as bs

def strLt (a b : String) : Bool :=
  charListLt a.data b.data

/-- `spans.entry(connection_id).or_default()` followed by the request-level
entry operation, keeping connection keys sorted. -/
def recordConn (cid : String) (rid : Nat) (e : LogEvent) : Store → Store
  | [] => [(cid, recordRequest rid e [])]
  | (k, inner) :: rest =>
    if strLt cid k then (cid, recordRequest rid e []) :: (k, inner) :: rest
    else if cid = k then (k, recordRequest rid e inner) :: rest
    else (k, inner) :: recordConn cid rid e rest

def ConnSpans.lookup (rid : Nat) : ConnSpans → Option Span
  | [] => none
  | (k, s) :: rest => if rid = k then some s else ConnSpans.lookup rid rest

def Store.lookup (cid : String) (rid : Nat) : Store → Option Span
  | [] => none
  | (k, inner) :: rest =>
    if cid = k then ConnSpans.lookup rid inner else Store.lookup cid rid rest

/-! ## Ingestion state and driver loop -/

/-- The running-minimum update for `smallest_start_at`. -/
def observeSmallest (cur : Option Int) (t : Int) : Option Int :=
  match cur with
  | some m => if m > t then some t else some m
  | none => some t

/-- The running-maximum update for `largest_end_at`. -/
def observeLargest (cur : Option Int) (t : Int) : Option Int :=
  match cur with
  | some m => if m < t then some t else some m
  | none => some t

/-- The mutable state threaded through the ingestion loop of `main`. -/
structure IngestState where
  analysedLines : Nat
  matchedLines : Nat
  smallestStartAt : Option Int
  largestEndAt : Option Int
  spans : Store
deriving DecidableEq

def initialState : IngestState :=
  { analysedLines := 0
    matchedLines := 0
    smallestStartAt := none
    largestEndAt := none
    spans := [] }

/-- Processing of one fully decoded matched line: bump both counters,
update the time origin, merge into the store. -/
def ingestEvent (st : IngestState) (e : LogEvent) : IngestState :=
  { st with
    analysedLines := st.analysedLines + 1
    matchedLines := st.matchedLines + 1
    smallestStartAt := observeSmallest st.smallestStartAt e.timestamp
    largestEndAt := observeLargest st.largestEndAt e.timestamp
    spans := recordConn e.connectionId e.requestId e st.spans }

/-- One iteration of the line loop.  A non-matching line only bumps the
line counter.  On a matching line the match counter is bumped, then
`datetime` and `request_id` are decoded with `.expect`, whose panic is
embedded as `Except.error` carrying the state at the moment of the abort. -/
def stepLine (st : IngestState) (line : Option Captures) :
    Except (IngestState × String) IngestState :=
  match line with
  | none => .ok { st with analysedLines := st.analysedLines + 1 }
  | some c =>
    match parseDatetime c.datetime with
    | none =>
      .error ({ st with analysedLines := st.analysedLines + 1,
                        matchedLines := st.matchedLines + 1 },
              "Failed to parse `datetime`")
    | some ts =>
      match parseU32 c.requestId with
      | none =>
        .error ({ st with analysedLines := st.analysedLines + 1,
                          matchedLines := st.matchedLines + 1 },
                "Failed to parse `request_id`")
      | some rid => .ok (ingestEvent st (c.toEvent ts rid))

def runLines (st : IngestState) : List (Option Captures) →
    Except (IngestState × String) IngestState
  | [] => .ok st
  | l :: rest =>
    match stepLine st l with
    | .ok stNext => runLines stNext rest
    | .error err => .error err

/-- The ingestion loop restricted to matched, successfully decoded lines
(the event level at which the span-store claims live). -/
def runEventsFrom (st : IngestState) (es : List LogEvent) : IngestState :=
  es.foldl ingestEvent st

def runEvents (es : List LogEvent) : IngestState :=
  runEventsFrom initialState es

/-- The matched events whose key is (`c`, `r`), in arrival order. -/
def matchingEvents (es : List LogEvent) (c : String) (r : Nat) : List LogEvent :=
  es.filter fun e => e.connectionId == c && e.requestId == r

/-! ## Report assembly -/

/-- chrono `timestamp_millis`: floor of nanoseconds-since-epoch over 10^6
(also `TimeDelta::num_milliseconds` on a delta stored as nanoseconds). -/
def timestampMillis (nanos : Int) : Int :=
  nanos.fdiv 1000000

def i64Max : Int := 9223372036854775807

def i64Min : Int := -9223372036854775808

/-- `i64::saturating_sub`. -/
def saturatingSub (a b : Int) : Int :=
  max (min (a - b) i64Max) i64Min

/-- `status.map(|s| if s > 0 { s / 100 } else { 0 }).unwrap_or_default()`. -/
def statusFamily (st : Option Nat) : Nat :=
  match st with
  | some s => if 0 < s then s / 100 else 0
  | none => 0

/-! ### URL decomposition (collaborator)

Modelled from the spec: the URL-decomposition utility of §6 ("returning
host-boundary and path-start offsets (or failure) given a URI string",
the `ada_url` crate), which is not part of this repository.  The host
starts after the `://` scheme separator and ends at the next `/`, which
is also where the path starts; a URI without a scheme separator fails to
decompose. -/

structure UrlComponents where
  hostStart : Nat
  hostEnd : Nat
  pathnameStart : Option Nat
deriving DecidableEq

def findSchemeSep : List Char → Option Nat
  | ':' :: '/' :: '/' :: _ => some 3
  | _ :: rest => (findSchemeSep rest).map (· + 1)
  | [] => none

def findCharFrom (c : Char) : List Char → Option Nat
  | [] => none
  | x :: rest =>
    if x = c then some 0 else (findCharFrom c rest).map (· + 1)

def urlComponents (uri : String) : Option UrlComponents :=
  let cs := uri.data
  match findSchemeSep cs with
  | none => none
  | some hs =>
    match findCharFrom '/' (cs.drop hs) with
    | some i => some { hostStart := hs, hostEnd := hs + i, pathnameStart := some (hs + i) }
    | none => some { hostStart := hs, hostEnd := cs.length, pathnameStart := none }

/-- `uri[a..b]` byte-range slicing, on the character list. -/
def sliceStr (s : String) (a b : Nat) : String :=
  ⟨(s.data.drop a).take (b - a)⟩

/-- `uri[a..]`. -/
def sliceStrFrom (s : String) (a : Nat) : String :=
  ⟨s.data.drop a⟩

/-- One `<tr>` row of the report, as the typed field values substituted
into the markup. -/
structure Row where
  connectionId : String
  requestId : Nat
  status : Option Nat
  statusFamily : Nat
  method : String
  domain : String
  path : String
  requestSize : String
  responseSize : String
  startAt : Int
  durationMs : Int
deriving DecidableEq

/-- The row built for one span (the `format!` call in `main`):
`domain`/`path` from URL decomposition or empty on failure, sizes rendered
with empty string for `None`, `start_at` as
`timestamp_millis().saturating_sub(smallest_start_at)`, duration in
milliseconds. -/
def spanRow (smallestMillis : Int) (cid : String) (rid : Nat) (s : Span) : Row :=
  let comps := urlComponents s.uri
  { connectionId := cid
    requestId := rid
    status := s.status
    statusFamily := statusFamily s.status
    method := s.method
    domain :=
      match comps with
      | some c => sliceStr s.uri c.hostStart c.hostEnd
      | none => ""
    path :=
      match comps with
      | some c =>
        match c.pathnameStart with
        | some p => sliceStrFrom s.uri p
        | none => ""
      | none => ""
    requestSize := s.requestSize.getD ""
    responseSize := s.responseSize.getD ""
    startAt := saturatingSub (timestampMillis s.startAt) smallestMillis
    durationMs := timestampMillis s.duration }

/-- The rows of the report, in store iteration order. -/
def reportRows (st : IngestState) : List Row :=
  let smallest := (st.smallestStartAt.map timestampMillis).getD 0
  st.spans.flatMap fun p => p.2.map fun q => spanRow smallest p.1 q.1 q.2

/-- The `{end_at}` substitution: total timeline duration in milliseconds,
`largest.saturating_sub(smallest)` with both defaulting to `0`. -/
def reportEndAt (st : IngestState) : Int :=
  saturatingSub ((st.largestEndAt.map timestampMillis).getD 0)
    ((st.smallestStartAt.map timestampMillis).getD 0)

/-! ## Span-level lemmas -/

theorem Span.update_startAt (s : Span) (e : LogEvent) :
    (Span.update s e).startAt = s.startAt := rfl

theorem Span.update_method (s : Span) (e : LogEvent) :
    (Span.update s e).method = s.method := rfl

theorem Span.update_uri (s : Span) (e : LogEvent) :
    (Span.update s e).uri = s.uri := rfl

theorem Span.foldl_update_startAt (ms : List LogEvent) (s : Span) :
    (ms.foldl Span.update s).startAt = s.startAt := by
  induction ms generalizing s with
  | nil => rfl
  | cons m ms ih => simpa [Span.update_startAt] using ih (Span.update s m)

theorem Span.update_duration (s : Span) (e : LogEvent) :
    (Span.update s e).duration = e.timestamp - s.startAt := rfl

theorem Span.foldl_update_duration (ms : List LogEvent) (s : Span) :
    (ms.foldl Span.update s).duration =
      match ms.getLast? with
      | none => s.duration
      | some l => l.timestamp - s.startAt := by
  induction ms generalizing s with
  | nil => rfl
  | cons m ms ih =>
    cases ms with
    | nil => simp [ih, Span.update_duration]
    | cons m2 ms2 =>
      rw [List.foldl_cons, ih (Span.update s m), List.getLast?_cons_cons]
      cases h : (m2 :: ms2).getLast? with
      | none => simp at h
      | some l => simp [Span.update_startAt]

/-! ## Store ordering and lookup lemmas -/

theorem charToNat_inj {a b : Char} (h : a.toNat = b.toNat) : a = b :=
  Char.ext (UInt32.toNat.inj h)

theorem charListLt_irrefl : ∀ l, charListLt l l = false
  | [] => rfl
  | a :: as => by
    rw [charListLt]
    simp [Nat.lt_irrefl, charListLt_irrefl as]

theorem charListLt_trans : ∀ l1 l2 l3, charListLt l1 l2 = true →
    charListLt l2 l3 = true → charListLt l1 l3 = true := by
  intro l1
  induction l1 with
  | nil =>
    intro l2 l3 h1 h2
    cases l3 with
    | nil => cases l2 <;> simp [charListLt] at h2
    | cons c cs => rw [charListLt]
  | cons a as ih =>
    intro l2 l3 h1 h2
    cases l2 with
    | nil => rw [charListLt] at h1; cases h1
    | cons b bs =>
      cases l3 with
      | nil => rw [charListLt] at h2; cases h2
      | cons c cs =>
        rw [charListLt] at h1 h2 ⊢
        by_cases hab : a.toNat < b.toNat
        · by_cases hbc : b.toNat < c.toNat
          · simp [Nat.lt_trans hab hbc]
          · by_cases hcb : c.toNat < b.toNat
            · simp [hbc, hcb] at h2
            · have hb : b.toNat = c.toNat := Nat.le_antisymm (Nat.le_of_not_lt hcb) (Nat.le_of_not_lt hbc)
              simp [hb ▸ hab]
        · by_cases hba : b.toNat < a.toNat
          · simp [hab, hba] at h1
          · have ha : a.toNat = b.toNat := Nat.le_antisymm (Nat.le_of_not_lt hba) (Nat.le_of_not_lt hab)
            simp only [if_neg hab, if_neg hba] at h1
            by_cases hbc : b.toNat < c.toNat
            · simp [ha ▸ hbc]
            · by_cases hcb : c.toNat < b.toNat
              · simp [hbc, hcb] at h2
              · simp only [if_neg hbc, if_neg hcb] at h2
                have hac : ¬ a.toNat < c.toNat := ha ▸ hbc
                have hca : ¬ c.toNat < a.toNat := ha ▸ hcb
                simp only [if_neg hac, if_neg hca]
                exact ih bs cs h1 h2

theorem charListLt_total : ∀ l1 l2, charListLt l1 l2 = false → l1 ≠ l2 →
    charListLt l2 l1 = true := by
  intro l1
  induction l1 with
  | nil =>
    intro l2 h1 h2
    cases l2 with
    | nil => exact absurd rfl h2
    | cons b bs => rw [charListLt] at h1; cases h1
  | cons a as ih =>
    intro l2 h1 h2
    cases l2 with
    | nil => rw [charListLt]
    | cons b bs =>
      rw [charListLt] at h1 ⊢
      by_cases hab : a.toNat < b.toNat
      · simp [hab] at h1
      · by_cases hba : b.toNat < a.toNat
        · simp [hba]
        · have ha : a = b :=
            charToNat_inj (Nat.le_antisymm (Nat.le_of_not_lt hba) (Nat.le_of_not_lt hab))
          simp only [if_neg hab, if_neg hba] at h1
          simp only [if_neg hba, if_neg hab]
          refine ih bs h1 ?_
          intro heq
          exact h2 (by rw [ha, heq])

theorem strLt_irrefl (a : String) : strLt a a = false :=
  charListLt_irrefl a.data

theorem strLt_trans {a b c : String} (h1 : strLt a b = true)
    (h2 : strLt b c = true) : strLt a c = true :=
  charListLt_trans a.data b.data c.data h1 h2

theorem strLt_asymm {a b : String} (h1 : strLt a b = true)
    (h2 : strLt b a = true) : False := by
  have := charListLt_trans a.data b.data a.data h1 h2
  rw [strLt] at *
  rw [charListLt_irrefl a.data] at this
  cases this

theorem strLt_ne {a b : String} (h : strLt a b = true) : a ≠ b := by
  intro heq
  subst heq
  rw [strLt_irrefl a] at h
  cases h

theorem strLt_total {a b : String} (h1 : ¬ strLt a b = true) (h2 : a ≠ b) :
    strLt b a = true := by
  refine charListLt_total a.data b.data (Bool.not_eq_true _ ▸ h1) ?_
  intro heq
  apply h2
  cases a
  cases b
  simp only at heq
  rw [heq]

def ConnSpans.Ordered (l : ConnSpans) : Prop :=
  l.Pairwise fun a b => a.1 < b.1

def Store.Ordered (s : Store) : Prop :=
  (s.Pairwise fun a b => strLt a.1 b.1 = true) ∧ ∀ p ∈ s, ConnSpans.Ordered p.2

theorem recordRequest_nil (rid : Nat) (e : LogEvent) :
    recordRequest rid e [] = [(rid, Span.create e)] := rfl

theorem recordRequest_cons (rid : Nat) (e : LogEvent) (k : Nat) (s : Span)
    (rest : ConnSpans) :
    recordRequest rid e ((k, s) :: rest) =
      if rid < k then (rid, Span.create e) :: (k, s) :: rest
      else if rid = k then (k, Span.update s e) :: rest
      else (k, s) :: recordRequest rid e rest := rfl

theorem connSpansLookup_nil (rid : Nat) : ConnSpans.lookup rid [] = none := rfl

theorem connSpansLookup_cons (rid k : Nat) (s : Span) (rest : ConnSpans) :
    ConnSpans.lookup rid ((k, s) :: rest) =
      if rid = k then some s else ConnSpans.lookup rid rest := rfl

theorem recordConn_nil (cid : String) (rid : Nat) (e : LogEvent) :
    recordConn cid rid e [] = [(cid, [(rid, Span.create e)])] := rfl

theorem recordConn_cons (cid : String) (rid : Nat) (e : LogEvent) (k : String)
    (inner : ConnSpans) (rest : Store) :
    recordConn cid rid e ((k, inner) :: rest) =
      if strLt cid k then (cid, [(rid, Span.create e)]) :: (k, inner) :: rest
      else if cid = k then (k, recordRequest rid e inner) :: rest
      else (k, inner) :: recordConn cid rid e rest := rfl

theorem storeLookup_nil (cid : String) (rid : Nat) :
    Store.lookup cid rid [] = none := rfl

theorem storeLookup_cons (cid : String) (rid : Nat) (k : String)
    (inner : ConnSpans) (rest : Store) :
    Store.lookup cid rid ((k, inner) :: rest) =
      if cid = k then ConnSpans.lookup rid inner
      else Store.lookup cid rid rest := rfl

theorem recordRequest_keys (rid : Nat) (e : LogEvent) (l : ConnSpans) (k : Nat) :
    k ∈ (recordRequest rid e l).map Prod.fst ↔ k = rid ∨ k ∈ l.map Prod.fst := by
  induction l with
  | nil => simp [recordRequest_nil]
  | cons p rest ih =>
    obtain ⟨kp, sp⟩ := p
    rw [recordRequest_cons]
    by_cases h1 : rid < kp
    · rw [if_pos h1]
      simp only [List.map_cons, List.mem_cons]
    · by_cases h2 : rid = kp
      · rw [if_neg h1, if_pos h2]
        subst h2
        simp only [List.map_cons, List.mem_cons]
        tauto
      · rw [if_neg h1, if_neg h2]
        simp only [List.map_cons, List.mem_cons, ih]
        tauto

theorem recordRequest_ordered (rid : Nat) (e : LogEvent) (l : ConnSpans) :
    ConnSpans.Ordered l → ConnSpans.Ordered (recordRequest rid e l) := by
  induction l with
  | nil =>
    intro _
    simp [recordRequest_nil, ConnSpans.Ordered]
  | cons p rest ih =>
    intro h
    obtain ⟨kp, sp⟩ := p
    rw [ConnSpans.Ordered, List.pairwise_cons] at h
    obtain ⟨hall, hrest⟩ := h
    rw [recordRequest_cons]
    by_cases h1 : rid < kp
    · rw [if_pos h1, ConnSpans.Ordered, List.pairwise_cons]
      constructor
      · intro a ha
        rcases List.mem_cons.mp ha with rfl | ha2
        · exact h1
        · exact lt_trans h1 (hall a ha2)
      · rw [List.pairwise_cons]
        exact ⟨hall, hrest⟩
    · by_cases h2 : rid = kp
      · rw [if_neg h1, if_pos h2, ConnSpans.Ordered, List.pairwise_cons]
        exact ⟨hall, hrest⟩
      · rw [if_neg h1, if_neg h2, ConnSpans.Ordered, List.pairwise_cons]
        constructor
        · intro a ha
          have hin : a.1 ∈ (recordRequest rid e rest).map Prod.fst :=
            List.mem_map_of_mem Prod.fst ha
          rcases (recordRequest_keys rid e rest a.1).mp hin with heq | hmem
          · rw [heq]
            exact lt_of_le_of_ne (le_of_not_lt h1) fun hh => h2 hh.symm
          · obtain ⟨b, hb, hfst⟩ := List.mem_map.mp hmem
            rw [← hfst]
            exact hall b hb
        · exact ih hrest

theorem connSpansLookup_eq_none (rid : Nat) (l : ConnSpans)
    (h : rid ∉ l.map Prod.fst) : ConnSpans.lookup rid l = none := by
  induction l with
  | nil => rfl
  | cons p rest ih =>
    obtain ⟨kp, sp⟩ := p
    simp only [List.map_cons, List.mem_cons, not_or] at h
    rw [connSpansLookup_cons, if_neg h.1]
    exact ih h.2

theorem recordRequest_lookup_self (rid : Nat) (e : LogEvent) (l : ConnSpans) :
    ConnSpans.Ordered l →
    ConnSpans.lookup rid (recordRequest rid e l) =
      some (match ConnSpans.lookup rid l with
            | none => Span.create e
            | some s => Span.update s e) := by
  induction l with
  | nil =>
    intro _
    rw [recordRequest_nil, connSpansLookup_cons, if_pos rfl, connSpansLookup_nil]
  | cons p rest ih =>
    intro h
    obtain ⟨kp, sp⟩ := p
    rw [ConnSpans.Ordered, List.pairwise_cons] at h
    obtain ⟨hall, hrest⟩ := h
    rw [recordRequest_cons]
    by_cases h1 : rid < kp
    · rw [if_pos h1]
      have hne : rid ≠ kp := ne_of_lt h1
      have hnotin : rid ∉ rest.map Prod.fst := by
        intro hmem
        obtain ⟨b, hb, hfst⟩ := List.mem_map.mp hmem
        have hlt := hall b hb
        rw [hfst] at hlt
        exact absurd (lt_trans h1 hlt) (lt_irrefl rid)
      rw [connSpansLookup_cons, if_pos rfl, connSpansLookup_cons, if_neg hne,
        connSpansLookup_eq_none rid rest hnotin]
    · by_cases h2 : rid = kp
      · rw [if_neg h1, if_pos h2]
        subst h2
        rw [connSpansLookup_cons, if_pos rfl, connSpansLookup_cons, if_pos rfl]
      · rw [if_neg h1, if_neg h2]
        rw [connSpansLookup_cons, if_neg h2, connSpansLookup_cons, if_neg h2]
        exact ih hrest

theorem recordRequest_lookup_other (r rid : Nat) (e : LogEvent) (l : ConnSpans)
    (h : r ≠ rid) :
    ConnSpans.lookup r (recordRequest rid e l) = ConnSpans.lookup r l := by
  induction l with
  | nil =>
    rw [recordRequest_nil, connSpansLookup_cons, if_neg h, connSpansLookup_nil]
  | cons p rest ih =>
    obtain ⟨kp, sp⟩ := p
    rw [recordRequest_cons]
    by_cases h1 : rid < kp
    · rw [if_pos h1, connSpansLookup_cons, if_neg h]
    · by_cases h2 : rid = kp
      · subst h2
        rw [if_neg h1, if_pos rfl, connSpansLookup_cons, if_neg h,
          connSpansLookup_cons, if_neg h]
      · rw [if_neg h1, if_neg h2, connSpansLookup_cons, connSpansLookup_cons, ih]

theorem recordConn_keys (cid : String) (rid : Nat) (e : LogEvent) (s : Store)
    (k : String) :
    k ∈ (recordConn cid rid e s).map Prod.fst ↔ k = cid ∨ k ∈ s.map Prod.fst := by
  induction s with
  | nil => simp [recordConn_nil]
  | cons p rest ih =>
    obtain ⟨kp, inner⟩ := p
    rw [recordConn_cons]
    by_cases h1 : strLt cid kp = true
    · rw [if_pos h1]
      simp only [List.map_cons, List.mem_cons]
    · by_cases h2 : cid = kp
      · rw [if_neg h1, if_pos h2]
        subst h2
        simp only [List.map_cons, List.mem_cons]
        tauto
      · rw [if_neg h1, if_neg h2]
        simp only [List.map_cons, List.mem_cons, ih]
        tauto

theorem recordConn_ordered (cid : String) (rid : Nat) (e : LogEvent) (s : Store) :
    Store.Ordered s → Store.Ordered (recordConn cid rid e s) := by
  induction s with
  | nil =>
    intro _
    constructor
    · simp [recordConn_nil]
    · intro p hp
      rw [recordConn_nil] at hp
      rcases List.mem_singleton.mp hp with rfl
      simp [ConnSpans.Ordered]
  | cons q rest ih =>
    intro h
    obtain ⟨kq, inner⟩ := q
    obtain ⟨houter, hinner⟩ := h
    rw [List.pairwise_cons] at houter
    obtain ⟨hall, hrest⟩ := houter
    have hrestOrd : Store.Ordered rest :=
      ⟨hrest, fun p hp => hinner p (List.mem_cons_of_mem _ hp)⟩
    rw [recordConn_cons]
    by_cases h1 : strLt cid kq = true
    · rw [if_pos h1]
      constructor
      · rw [List.pairwise_cons]
        constructor
        · intro a ha
          rcases List.mem_cons.mp ha with rfl | ha2
          · exact h1
          · exact strLt_trans h1 (hall a ha2)
        · rw [List.pairwise_cons]
          exact ⟨hall, hrest⟩
      · intro p hp
        rcases List.mem_cons.mp hp with rfl | hp2
        · simp [ConnSpans.Ordered]
        · exact hinner p hp2
    · by_cases h2 : cid = kq
      · rw [if_neg h1, if_pos h2]
        constructor
        · rw [List.pairwise_cons]
          exact ⟨hall, hrest⟩
        · intro p hp
          rcases List.mem_cons.mp hp with rfl | hp2
          · exact recordRequest_ordered rid e inner
              (hinner (kq, inner) (List.mem_cons_self _ _))
          · exact hinner p (List.mem_cons_of_mem _ hp2)
      · rw [if_neg h1, if_neg h2]
        obtain ⟨ihOuter, ihInner⟩ := ih hrestOrd
        constructor
        · rw [List.pairwise_cons]
          refine ⟨?_, ihOuter⟩
          intro a ha
          have hin : a.1 ∈ (recordConn cid rid e rest).map Prod.fst :=
            List.mem_map_of_mem Prod.fst ha
          rcases (recordConn_keys cid rid e rest a.1).mp hin with heq | hmem
          · rw [heq]
            exact strLt_total h1 h2
          · obtain ⟨b, hb, hfst⟩ := List.mem_map.mp hmem
            rw [← hfst]
            exact hall b hb
        · intro p hp
          rcases List.mem_cons.mp hp with rfl | hp2
          · exact hinner (kq, inner) (List.mem_cons_self _ _)
          · exact ihInner p hp2

theorem storeLookup_eq_none (cid : String) (rid : Nat) (s : Store)
    (h : cid ∉ s.map Prod.fst) : Store.lookup cid rid s = none := by
  induction s with
  | nil => rfl
  | cons p rest ih =>
    obtain ⟨kp, inner⟩ := p
    simp only [List.map_cons, List.mem_cons, not_or] at h
    rw [storeLookup_cons, if_neg h.1]
    exact ih h.2

theorem recordConn_lookup_self (cid : String) (rid : Nat) (e : LogEvent)
    (s : Store) :
    Store.Ordered s →
    Store.lookup cid rid (recordConn cid rid e s) =
      some (match Store.lookup cid rid s with
            | none => Span.create e
            | some sp => Span.update sp e) := by
  induction s with
  | nil =>
    intro _
    rw [recordConn_nil, storeLookup_cons, if_pos rfl, connSpansLookup_cons,
      if_pos rfl, storeLookup_nil]
  | cons q rest ih =>
    intro h
    obtain ⟨kq, inner⟩ := q
    obtain ⟨houter, hinner⟩ := h
    rw [List.pairwise_cons] at houter
    obtain ⟨hall, hrest⟩ := houter
    rw [recordConn_cons]
    by_cases h1 : strLt cid kq = true
    · rw [if_pos h1]
      have hne : cid ≠ kq := strLt_ne h1
      have hnotin : cid ∉ rest.map Prod.fst := by
        intro hmem
        obtain ⟨b, hb, hfst⟩ := List.mem_map.mp hmem
        have hlt := hall b hb
        rw [hfst] at hlt
        exact strLt_asymm h1 hlt
      rw [storeLookup_cons, if_pos rfl, connSpansLookup_cons, if_pos rfl,
        storeLookup_cons, if_neg hne, storeLookup_eq_none cid rid rest hnotin]
    · by_cases h2 : cid = kq
      · rw [if_neg h1, if_pos h2]
        subst h2
        rw [storeLookup_cons, if_pos rfl, storeLookup_cons, if_pos rfl]
        exact recordRequest_lookup_self rid e inner
          (hinner (cid, inner) (List.mem_cons_self _ _))
      · rw [if_neg h1, if_neg h2]
        rw [storeLookup_cons, if_neg h2, storeLookup_cons, if_neg h2]
        exact ih ⟨hrest, fun p hp => hinner p (List.mem_cons_of_mem _ hp)⟩

theorem recordConn_lookup_other (c cid : String) (r rid : Nat) (e : LogEvent)
    (s : Store) :
    ¬(c = cid ∧ r = rid) → Store.Ordered s →
    Store.lookup c r (recordConn cid rid e s) = Store.lookup c r s := by
  induction s with
  | nil =>
    intro h _
    rw [recordConn_nil, storeLookup_cons, storeLookup_nil]
    by_cases hc : c = cid
    · rw [if_pos hc, connSpansLookup_cons, connSpansLookup_nil]
      have hr : r ≠ rid := fun hrr => h ⟨hc, hrr⟩
      rw [if_neg hr]
    · rw [if_neg hc]
  | cons q rest ih =>
    intro h hord
    obtain ⟨kq, inner⟩ := q
    obtain ⟨houter, hinner⟩ := hord
    rw [List.pairwise_cons] at houter
    obtain ⟨hall, hrest⟩ := houter
    have hrestOrd : Store.Ordered rest :=
      ⟨hrest, fun p hp => hinner p (List.mem_cons_of_mem _ hp)⟩
    rw [recordConn_cons]
    by_cases h1 : strLt cid kq = true
    · rw [if_pos h1, storeLookup_cons]
      by_cases hc : c = cid
      · rw [if_pos hc, connSpansLookup_cons, connSpansLookup_nil]
        have hr : r ≠ rid := fun hrr => h ⟨hc, hrr⟩
        rw [if_neg hr]
        have hne : c ≠ kq := fun hck => strLt_ne h1 (hc.symm.trans hck)
        have hnotin : c ∉ rest.map Prod.fst := by
          intro hmem
          obtain ⟨b, hb, hfst⟩ := List.mem_map.mp hmem
          have hlt := hall b hb
          rw [hfst] at hlt
          rw [hc] at hlt
          exact (strLt_asymm h1 hlt).elim
        rw [storeLookup_cons, if_neg hne, storeLookup_eq_none c r rest hnotin]
      · rw [if_neg hc]
    · by_cases h2 : cid = kq
      · rw [if_neg h1, if_pos h2, storeLookup_cons, storeLookup_cons]
        by_cases hck : c = kq
        · rw [if_pos hck, if_pos hck]
          have hr : r ≠ rid := fun hrr => h ⟨hck.trans h2.symm, hrr⟩
          exact recordRequest_lookup_other r rid e inner hr
        · rw [if_neg hck, if_neg hck]
      · rw [if_neg h1, if_neg h2, storeLookup_cons, storeLookup_cons]
        by_cases hck : c = kq
        · rw [if_pos hck, if_pos hck]
        · rw [if_neg hck, if_neg hck]
          exact ih h hrestOrd

/-! ## The ingestion fold -/

theorem ingestEvent_spans (st : IngestState) (e : LogEvent) :
    (ingestEvent st e).spans = recordConn e.connectionId e.requestId e st.spans := rfl

theorem runEventsFrom_nil (st : IngestState) : runEventsFrom st [] = st := rfl

theorem runEventsFrom_cons (st : IngestState) (e : LogEvent) (es : List LogEvent) :
    runEventsFrom st (e :: es) = runEventsFrom (ingestEvent st e) es := rfl

theorem runEventsFrom_ordered (es : List LogEvent) (st : IngestState)
    (h : Store.Ordered st.spans) : Store.Ordered (runEventsFrom st es).spans := by
  induction es generalizing st with
  | nil => exact h
  | cons e es ih =>
    rw [runEventsFrom_cons]
    refine ih (ingestEvent st e) ?_
    rw [ingestEvent_spans]
    exact recordConn_ordered _ _ _ _ h

theorem initialState_ordered : Store.Ordered initialState.spans := by
  constructor
  · simp [initialState]
  · intro p hp
    simp [initialState] at hp

theorem runEvents_ordered (es : List LogEvent) :
    Store.Ordered (runEvents es).spans :=
  runEventsFrom_ordered es initialState initialState_ordered

theorem matchingEvents_nil (c : String) (r : Nat) : matchingEvents [] c r = [] := rfl

theorem matchingEvents_cons (e : LogEvent) (es : List LogEvent) (c : String)
    (r : Nat) :
    matchingEvents (e :: es) c r =
      if e.connectionId = c ∧ e.requestId = r then e :: matchingEvents es c r
      else matchingEvents es c r := by
  by_cases h : e.connectionId = c ∧ e.requestId = r
  · rw [if_pos h]
    rw [matchingEvents, matchingEvents, List.filter_cons]
    simp [h.1, h.2]
  · rw [if_neg h]
    rw [matchingEvents, matchingEvents, List.filter_cons]
    rw [not_and_or] at h
    rcases h with h | h <;> simp [h]

/-- The central characterization of the store after the ingestion fold: the
span under a key, when it exists, is the fold of `Span.update` over the
matched events for that key, seeded by `Span.create` on the first of them
(or by the span already present before the fold). -/
theorem lookup_runEventsFrom (es : List LogEvent) (st : IngestState) (c : String)
    (r : Nat) :
    Store.Ordered st.spans →
    Store.lookup c r (runEventsFrom st es).spans =
      match Store.lookup c r st.spans with
      | some s => some ((matchingEvents es c r).foldl Span.update s)
      | none =>
        match matchingEvents es c r with
        | [] => none
        | f :: rest => some (rest.foldl Span.update (Span.create f)) := by
  induction es generalizing st with
  | nil =>
    intro _
    rw [runEventsFrom_nil, matchingEvents_nil]
    cases Store.lookup c r st.spans <;> rfl
  | cons e es ih =>
    intro h
    rw [runEventsFrom_cons]
    have hord : Store.Ordered (ingestEvent st e).spans := by
      rw [ingestEvent_spans]
      exact recordConn_ordered _ _ _ _ h
    rw [ih (ingestEvent st e) hord, matchingEvents_cons]
    by_cases hk : e.connectionId = c ∧ e.requestId = r
    · rw [if_pos hk]
      obtain ⟨hc, hr⟩ := hk
      subst hc
      subst hr
      have hsl : Store.lookup e.connectionId e.requestId (ingestEvent st e).spans =
          some (match Store.lookup e.connectionId e.requestId st.spans with
                | none => Span.create e
                | some sp => Span.update sp e) := by
        rw [ingestEvent_spans]
        exact recordConn_lookup_self _ _ _ _ h
      cases hold : Store.lookup e.connectionId e.requestId st.spans with
      | none =>
        rw [hold] at hsl
        rw [hsl]
      | some sp =>
        rw [hold] at hsl
        rw [hsl]
        simp [List.foldl_cons]
    · rw [if_neg hk]
      have hne : ¬(c = e.connectionId ∧ r = e.requestId) := by
        intro hcr
        exact hk ⟨hcr.1.symm, hcr.2.symm⟩
      have hsl : Store.lookup c r (ingestEvent st e).spans =
          Store.lookup c r st.spans := by
        rw [ingestEvent_spans]
        exact recordConn_lookup_other _ _ _ _ _ _ hne h
      rw [hsl]

theorem lookup_runEvents (es : List LogEvent) (c : String) (r : Nat) :
    Store.lookup c r (runEvents es).spans =
      match matchingEvents es c r with
      | [] => none
      | f :: rest => some (rest.foldl Span.update (Span.create f)) := by
  rw [runEvents, lookup_runEventsFrom es initialState c r initialState_ordered]
  rfl

theorem Span.update_status (s : Span) (e : LogEvent) :
    (Span.update s e).status =
      match e.status with
      | some v =>
        match parseU8 v with
        | some u => some u
        | none => s.status
      | none => s.status := rfl

theorem Span.update_requestSize (s : Span) (e : LogEvent) :
    (Span.update s e).requestSize =
      match e.requestSize with
      | some r => some r
      | none => s.requestSize := rfl

theorem Span.update_responseSize (s : Span) (e : LogEvent) :
    (Span.update s e).responseSize =
      match e.responseSize with
      | some r => some r
      | none => s.responseSize := rfl

theorem lookup_duration_eq (es : List LogEvent) (c : String) (r : Nat) :
    (Store.lookup c r (runEvents es).spans).map Span.duration
      = (matchingEvents es c r).head?.bind fun f =>
          ((matchingEvents es c r).getLast?).map fun l =>
            l.timestamp - f.timestamp := by
  rw [lookup_runEvents]
  cases hm : matchingEvents es c r with
  | nil => rfl
  | cons f rest =>
    rw [Option.map_some']
    rw [Span.foldl_update_duration]
    cases rest with
    | nil => simp [Span.create]
    | cons g rest2 =>
      rw [List.getLast?_cons_cons]
      cases hl : (g :: rest2).getLast? with
      | none => simp at hl
      | some l => simp [Span.create]

/-! ## Claims about the merge rules (C2 – C6) -/

/-- C2 counterexample: the status digits `404` are one-to-three decimal
digits, yet on an update they do not overwrite the prior status, because
the code parses the status into `u8` (`Span.status : Option<u8>`) and
`"404".parse::<u8>()` fails; the prior status `200` is retained. -/
theorem C2_counterexample :
    (Span.update ⟨some 200, "GET", "https://a.example/x", some "12", none, 0, 0⟩
        ⟨150000000, "c1", 1, "GET", "https://a.example/x", none, some 404,
          none⟩).status = some 200
    ∧ (Span.update ⟨some 200, "GET", "https://a.example/x", some "12", none, 0, 0⟩
        ⟨150000000, "c1", 1, "GET", "https://a.example/x", none, some 404,
          none⟩).status ≠ some 404
    ∧ parseU8 404 = none := by decide

/-- C2 (amended): for every existing span and subsequent event carrying a
status field, the span's status is overwritten with that value exactly when
the value fits the 8-bit unsigned status type (value ≤ 255); a carried
status above 255 fails to parse as `u8`, is ignored, and the prior status
is retained. -/
theorem C2_amended_status_overwrite (s : Span) (e : LogEvent) (v : Nat)
    (h : e.status = some v) :
    (v ≤ 255 → (Span.update s e).status = some v)
    ∧ (255 < v → (Span.update s e).status = s.status) := by
  constructor
  · intro hv
    rw [Span.update_status, h]
    simp [parseU8, hv]
  · intro hv
    have hnv : ¬ v ≤ 255 := not_le.mpr hv
    rw [Span.update_status, h]
    simp [parseU8, hnv]

theorem C2_amended_witness :
    ((⟨5, "c1", 1, "GET", "u", none, some 200, none⟩ : LogEvent).status = some 200)
    ∧ ((200 ≤ 255 →
        (Span.update ⟨none, "GET", "u", none, none, 0, 0⟩
          ⟨5, "c1", 1, "GET", "u", none, some 200, none⟩).status = some 200)
      ∧ (255 < 200 →
        (Span.update ⟨none, "GET", "u", none, none, 0, 0⟩
          ⟨5, "c1", 1, "GET", "u", none, some 200, none⟩).status = none)) :=
  ⟨rfl, C2_amended_status_overwrite ⟨none, "GET", "u", none, none, 0, 0⟩
    ⟨5, "c1", 1, "GET", "u", none, some 200, none⟩ 200 rfl⟩

/-- C3 counterexample: a first (creating) event that carries status `200`,
request size and response size produces a span whose status is `none`, not
`some 200` — the `Entry::Vacant` branch writes `status: None`
unconditionally, so not all span fields are populated from the event. -/
theorem C3_counterexample :
    (Span.create ⟨0, "c1", 1, "GET", "https://a.example/x", some "12", some 200,
        some "34"⟩).status = none
    ∧ (Span.create ⟨0, "c1", 1, "GET", "https://a.example/x", some "12", some 200,
        some "34"⟩).status ≠ some 200 := by decide

/-- C3 (amended): for every first event observed for a key, the created
span's method, uri, request size, response size are populated from that
event, its start timestamp is the event's timestamp and its duration is
zero, but its status is always initialized to absent, even when the
creating event carries a status field. -/
theorem C3_amended_creation_fields (es : List LogEvent) (c : String) (r : Nat)
    (f : LogEvent) (h : matchingEvents es c r = [f]) :
    Store.lookup c r (runEvents es).spans = some (Span.create f)
    ∧ (Span.create f).method = f.method
    ∧ (Span.create f).uri = f.uri
    ∧ (Span.create f).requestSize = f.requestSize
    ∧ (Span.create f).responseSize = f.responseSize
    ∧ (Span.create f).startAt = f.timestamp
    ∧ (Span.create f).duration = 0
    ∧ (Span.create f).status = none := by
  refine ⟨?_, rfl, rfl, rfl, rfl, rfl, rfl, rfl⟩
  rw [lookup_runEvents, h]
  rfl

theorem C3_amended_witness :
    matchingEvents [⟨0, "c1", 1, "GET", "u", some "12", some 200, none⟩] "c1" 1
        = [⟨0, "c1", 1, "GET", "u", some "12", some 200, none⟩]
    ∧ Store.lookup "c1" 1
        (runEvents [⟨0, "c1", 1, "GET", "u", some "12", some 200, none⟩]).spans
        = some (Span.create ⟨0, "c1", 1, "GET", "u", some "12", some 200, none⟩) :=
  ⟨by decide,
    (C3_amended_creation_fields [⟨0, "c1", 1, "GET", "u", some "12", some 200, none⟩]
      "c1" 1 ⟨0, "c1", 1, "GET", "u", some "12", some 200, none⟩ (by decide)).1⟩

/-- C4: for every key, the span's start timestamp equals the timestamp of
the first matched event observed for that key, regardless of how many (and
which) later events — including creation-shaped duplicates, which take the
`Entry::Occupied` update path — reference the same key. -/
theorem C4_start_timestamp_immutable (es : List LogEvent) (c : String) (r : Nat) :
    (Store.lookup c r (runEvents es).spans).map Span.startAt
      = ((matchingEvents es c r).head?).map LogEvent.timestamp := by
  rw [lookup_runEvents]
  cases hm : matchingEvents es c r with
  | nil => rfl
  | cons f rest =>
    rw [Option.map_some']
    rw [Span.foldl_update_startAt]
    rfl

/-- C5: after any sequence of events for a key, the span's duration equals
the timestamp of the last matched event for the key minus the timestamp of
the first (the span's start), recomputed from scratch; a span with exactly
one observed event has duration zero; and the duration is non-negative
whenever the matched events' timestamps are monotonically non-decreasing. -/
theorem C5_duration_recomputed (es : List LogEvent) (c : String) (r : Nat) :
    ((Store.lookup c r (runEvents es).spans).map Span.duration
      = (matchingEvents es c r).head?.bind fun f =>
          ((matchingEvents es c r).getLast?).map fun l =>
            l.timestamp - f.timestamp)
    ∧ (∀ f, matchingEvents es c r = [f] →
        (Store.lookup c r (runEvents es).spans).map Span.duration = some 0)
    ∧ (((matchingEvents es c r).map LogEvent.timestamp).Pairwise (· ≤ ·) →
        ∀ s, Store.lookup c r (runEvents es).spans = some s → 0 ≤ s.duration) := by
  refine ⟨lookup_duration_eq es c r, ?_, ?_⟩
  · intro f hf
    rw [lookup_duration_eq es c r, hf]
    simp
  · intro hmono s hs
    have hdur := lookup_duration_eq es c r
    rw [hs] at hdur
    cases hm : matchingEvents es c r with
    | nil =>
      rw [lookup_runEvents, hm] at hs
      exact absurd hs (by simp)
    | cons f rest =>
      rw [hm] at hdur
      cases hl : (f :: rest).getLast? with
      | none => simp at hl
      | some l =>
        rw [hl] at hdur
        simp only [List.head?_cons, Option.bind_some, Option.map_some'] at hdur
        have hsd : s.duration = l.timestamp - f.timestamp := by
          exact Option.some.inj hdur
        rw [hsd]
        rw [hm] at hmono
        have hfl : f.timestamp ≤ l.timestamp := by
          have hmem := List.mem_of_getLast?_eq_some hl
          rcases List.mem_cons.mp hmem with rfl | hmem2
          · exact le_refl _
          · have : l.timestamp ∈ rest.map LogEvent.timestamp :=
              List.mem_map_of_mem LogEvent.timestamp hmem2
            simp only [List.map_cons] at hmono
            exact List.rel_of_pairwise_cons hmono this
        exact sub_nonneg.mpr hfl

theorem C5_duration_witness :
    ((List.map LogEvent.timestamp
        (matchingEvents [⟨0, "c1", 1, "GET", "u", none, none, none⟩,
          ⟨150000000, "c1", 1, "GET", "u", none, some 200, none⟩] "c1" 1)).Pairwise
        (· ≤ ·))
    ∧ Store.lookup "c1" 1
        (runEvents [⟨0, "c1", 1, "GET", "u", none, none, none⟩,
          ⟨150000000, "c1", 1, "GET", "u", none, some 200, none⟩]).spans
        = some ⟨some 200, "GET", "u", none, none, 0, 150000000⟩
    ∧ (0 : Int) ≤ (⟨some 200, "GET", "u", none, none, 0, 150000000⟩ : Span).duration :=
  ⟨by decide, by decide,
    (C5_duration_recomputed [⟨0, "c1", 1, "GET", "u", none, none, none⟩,
        ⟨150000000, "c1", 1, "GET", "u", none, some 200, none⟩] "c1" 1).2.2
      (by decide) ⟨some 200, "GET", "u", none, none, 0, 150000000⟩ (by decide)⟩

/-- C6: each optional field is fill-in-only under updates: a field the
event does not carry (or, for status, carries with a value that fails the
`u8` status parse) keeps its previous value and is never cleared; a carried
field (for status: one that parses) overwrites with the new value. -/
theorem C6_optional_fields_fill_in (s : Span) (e : LogEvent) :
    ((e.status = none ∨ ∃ v, e.status = some v ∧ parseU8 v = none) →
        (Span.update s e).status = s.status)
    ∧ (∀ v u, e.status = some v → parseU8 v = some u →
        (Span.update s e).status = some u)
    ∧ (s.status.isSome → ((Span.update s e).status).isSome)
    ∧ (e.requestSize = none → (Span.update s e).requestSize = s.requestSize)
    ∧ (∀ x, e.requestSize = some x → (Span.update s e).requestSize = some x)
    ∧ (s.requestSize.isSome → ((Span.update s e).requestSize).isSome)
    ∧ (e.responseSize = none → (Span.update s e).responseSize = s.responseSize)
    ∧ (∀ x, e.responseSize = some x → (Span.update s e).responseSize = some x)
    ∧ (s.responseSize.isSome → ((Span.update s e).responseSize).isSome) := by
  refine ⟨?_, ?_, ?_, ?_, ?_, ?_, ?_, ?_, ?_⟩
  · rintro (h | ⟨v, hv, hp⟩)
    · rw [Span.update_status, h]
    · simp [Span.update_status, hv, hp]
  · intro v u hv hp
    simp [Span.update_status, hv, hp]
  · intro hsome
    cases hst : e.status with
    | none => simpa [Span.update_status, hst] using hsome
    | some v =>
      cases hp : parseU8 v with
      | none => simpa [Span.update_status, hst, hp] using hsome
      | some u => simp [Span.update_status, hst, hp]
  · intro h
    rw [Span.update_requestSize, h]
  · intro x h
    rw [Span.update_requestSize, h]
  · intro hsome
    rw [Span.update_requestSize]
    cases e.requestSize with
    | none => exact hsome
    | some x => rfl
  · intro h
    rw [Span.update_responseSize, h]
  · intro x h
    rw [Span.update_responseSize, h]
  · intro hsome
    rw [Span.update_responseSize]
    cases e.responseSize with
    | none => exact hsome
    | some x => rfl

theorem C6_witness :
    (Span.update ⟨some 7, "GET", "u", some "12", none, 0, 0⟩
        ⟨5, "c1", 1, "GET", "u", none, some 200, some "34"⟩).status = some 200
    ∧ (Span.update ⟨some 7, "GET", "u", some "12", none, 0, 0⟩
        ⟨5, "c1", 1, "GET", "u", none, some 200, some "34"⟩).requestSize
        = some "12" :=
  ⟨(C6_optional_fields_fill_in ⟨some 7, "GET", "u", some "12", none, 0, 0⟩
      ⟨5, "c1", 1, "GET", "u", none, some 200, some "34"⟩).2.1 200 200 rfl (by decide),
    (C6_optional_fields_fill_in ⟨some 7, "GET", "u", some "12", none, 0, 0⟩
      ⟨5, "c1", 1, "GET", "u", none, some 200, some "34"⟩).2.2.2.1 rfl⟩

/-! ## C1: decoding failures on a matched line -/

/-- C1 counterexample: a line that matches the line grammar but whose
datetime digits form no valid calendar date (month 13) is not demoted to a
non-match with processing continuing — the `.expect` on the datetime parse
aborts the run, after the match counter has already been incremented. -/
theorem C1_counterexample :
    stepLine initialState
        (some ⟨⟨2024, 13, 1, 10, 0, 0, 0⟩, "c1", 1, "GET",
          "https://a.example/x", none, none, none⟩)
      = Except.error (⟨1, 1, none, none, []⟩, "Failed to parse `datetime`") := rfl

/-- C1 (amended): for every line that matches the line grammar, if its
datetime fails to parse, or its request-id digits do not fit the 32-bit
request-identity type, the run aborts (the embedded `.expect` panic) with
both the line count and the match count already incremented; the span store
and the time origin are untouched, so no span is created or modified. -/
theorem C1_amended_parse_failure_aborts (st : IngestState) (c : Captures) :
    (parseDatetime c.datetime = none →
      stepLine st (some c)
        = Except.error ({ st with
              analysedLines := st.analysedLines + 1,
              matchedLines := st.matchedLines + 1 },
            "Failed to parse `datetime`"))
    ∧ (∀ ts, parseDatetime c.datetime = some ts → parseU32 c.requestId = none →
      stepLine st (some c)
        = Except.error ({ st with
              analysedLines := st.analysedLines + 1,
              matchedLines := st.matchedLines + 1 },
            "Failed to parse `request_id`")) := by
  constructor
  · intro h
    simp [stepLine, h]
  · intro ts h1 h2
    simp [stepLine, h1, h2]

theorem C1_amended_witness :
    parseDatetime ⟨2024, 13, 1, 10, 0, 0, 0⟩ = none
    ∧ stepLine initialState
        (some ⟨⟨2024, 13, 1, 10, 0, 0, 0⟩, "c2", 7, "POST", "u", none, none, none⟩)
      = Except.error ({ initialState with analysedLines := 1, matchedLines := 1 },
          "Failed to parse `datetime`") :=
  ⟨by decide,
    (C1_amended_parse_failure_aborts initialState
      ⟨⟨2024, 13, 1, 10, 0, 0, 0⟩, "c2", 7, "POST", "u", none, none, none⟩).1
      (by decide)⟩

/-! ## Span membership through the store (for whole-store invariants) -/

theorem recordRequest_mem (rid : Nat) (e : LogEvent) (l : ConnSpans) :
    ∀ q, q ∈ recordRequest rid e l →
      q.2 = Span.create e ∨ (∃ p, p ∈ l ∧ q.2 = Span.update p.2 e) ∨ q ∈ l := by
  induction l with
  | nil =>
    intro q hq
    rw [recordRequest_nil] at hq
    rcases List.mem_singleton.mp hq with rfl
    exact Or.inl rfl
  | cons p0 rest ih =>
    intro q hq
    obtain ⟨kp, sp⟩ := p0
    rw [recordRequest_cons] at hq
    by_cases h1 : rid < kp
    · rw [if_pos h1] at hq
      rcases List.mem_cons.mp hq with rfl | hq2
      · exact Or.inl rfl
      · exact Or.inr (Or.inr hq2)
    · by_cases h2 : rid = kp
      · rw [if_neg h1, if_pos h2] at hq
        rcases List.mem_cons.mp hq with rfl | hq2
        · exact Or.inr (Or.inl ⟨(kp, sp), List.mem_cons_self _ _, rfl⟩)
        · exact Or.inr (Or.inr (List.mem_cons_of_mem _ hq2))
      · rw [if_neg h1, if_neg h2] at hq
        rcases List.mem_cons.mp hq with rfl | hq2
        · exact Or.inr (Or.inr (List.mem_cons_self _ _))
        · rcases ih q hq2 with h | ⟨p, hp, hup⟩ | hmem
          · exact Or.inl h
          · exact Or.inr (Or.inl ⟨p, List.mem_cons_of_mem _ hp, hup⟩)
          · exact Or.inr (Or.inr (List.mem_cons_of_mem _ hmem))

theorem recordConn_mem (cid : String) (rid : Nat) (e : LogEvent) (s : Store) :
    ∀ p q, p ∈ recordConn cid rid e s → q ∈ p.2 →
      q.2 = Span.create e
      ∨ (∃ pOld qOld, pOld ∈ s ∧ qOld ∈ pOld.2 ∧ q.2 = Span.update qOld.2 e)
      ∨ (∃ pOld, pOld ∈ s ∧ q ∈ pOld.2) := by
  induction s with
  | nil =>
    intro p q hp hq
    rw [recordConn_nil] at hp
    rcases List.mem_singleton.mp hp with rfl
    rcases List.mem_singleton.mp hq with rfl
    exact Or.inl rfl
  | cons p0 rest ih =>
    intro p q hp hq
    obtain ⟨kq, inner⟩ := p0
    rw [recordConn_cons] at hp
    by_cases h1 : strLt cid kq = true
    · rw [if_pos h1] at hp
      rcases List.mem_cons.mp hp with rfl | hp2
      · rcases List.mem_singleton.mp hq with rfl
        exact Or.inl rfl
      · exact Or.inr (Or.inr ⟨p, hp2, hq⟩)
    · by_cases h2 : cid = kq
      · rw [if_neg h1, if_pos h2] at hp
        rcases List.mem_cons.mp hp with rfl | hp2
        · rcases recordRequest_mem rid e inner q hq with h | ⟨pq, hpq, hup⟩ | hmem
          · exact Or.inl h
          · exact Or.inr (Or.inl ⟨(kq, inner), pq, List.mem_cons_self _ _, hpq, hup⟩)
          · exact Or.inr (Or.inr ⟨(kq, inner), List.mem_cons_self _ _, hmem⟩)
        · exact Or.inr (Or.inr ⟨p, List.mem_cons_of_mem _ hp2, hq⟩)
      · rw [if_neg h1, if_neg h2] at hp
        rcases List.mem_cons.mp hp with rfl | hp2
        · exact Or.inr (Or.inr ⟨(kq, inner), List.mem_cons_self _ _, hq⟩)
        · rcases ih p q hp2 hq with h | ⟨pOld, qOld, hpo, hqo, hup⟩ | ⟨pOld, hpo, hmem⟩
          · exact Or.inl h
          · exact Or.inr (Or.inl ⟨pOld, qOld, List.mem_cons_of_mem _ hpo, hqo, hup⟩)
          · exact Or.inr (Or.inr ⟨pOld, List.mem_cons_of_mem _ hpo, hmem⟩)

/-- All spans held by the store satisfy a property. -/
def AllSpans (s : Store) (P : Span → Prop) : Prop :=
  ∀ p ∈ s, ∀ q ∈ p.2, P q.2

theorem allSpans_recordConn {s : Store} {P : Span → Prop} (cid : String)
    (rid : Nat) (e : LogEvent) (hs : AllSpans s P) (hc : P (Span.create e))
    (hu : ∀ sp, P sp → P (Span.update sp e)) :
    AllSpans (recordConn cid rid e s) P := by
  intro p hp q hq
  rcases recordConn_mem cid rid e s p q hp hq with h | ⟨pOld, qOld, hpo, hqo, hup⟩ |
    ⟨pOld, hpo, hmem⟩
  · rw [h]; exact hc
  · rw [hup]; exact hu _ (hs pOld hpo qOld hqo)
  · exact hs pOld hpo q hmem

theorem allSpans_runEventsFrom {P : Span → Prop} (es : List LogEvent)
    (st : IngestState) (h : AllSpans st.spans P) (hc : ∀ e, P (Span.create e))
    (hu : ∀ sp e, P sp → P (Span.update sp e)) :
    AllSpans (runEventsFrom st es).spans P := by
  induction es generalizing st with
  | nil => exact h
  | cons e es ih =>
    rw [runEventsFrom_cons]
    refine ih (ingestEvent st e) ?_
    rw [ingestEvent_spans]
    exact allSpans_recordConn _ _ _ h (hc e) fun sp hsp => hu sp e hsp

/-! ## The status invariant (u8) -/

theorem parseU8_le {w u : Nat} (h : parseU8 w = some u) : u ≤ 255 := by
  unfold parseU8 at h
  by_cases hw : w ≤ 255
  · rw [if_pos hw] at h
    injection h with h
    subst h
    exact hw
  · rw [if_neg hw] at h
    cases h

theorem Span.create_status_bounded (e : LogEvent) :
    ∀ v, (Span.create e).status = some v → v ≤ 255 := by
  intro v h
  simp [Span.create] at h

theorem Span.update_status_bounded (sp : Span) (e : LogEvent)
    (h : ∀ v, sp.status = some v → v ≤ 255) :
    ∀ v, (Span.update sp e).status = some v → v ≤ 255 := by
  intro v hv
  cases hst : e.status with
  | none =>
    simp only [Span.update_status, hst] at hv
    exact h v hv
  | some w =>
    cases hp : parseU8 w with
    | none =>
      simp only [Span.update_status, hst, hp] at hv
      exact h v hv
    | some u =>
      simp only [Span.update_status, hst, hp, Option.some.injEq] at hv
      subst hv
      exact parseU8_le hp

theorem statusBounded_runEvents (es : List LogEvent) :
    AllSpans (runEvents es).spans fun sp => ∀ v, sp.status = some v → v ≤ 255 := by
  refine allSpans_runEventsFrom es initialState ?_ Span.create_status_bounded
    (fun sp e h => Span.update_status_bounded sp e h)
  intro p hp
  simp [initialState] at hp

/-! ## The time-origin invariant -/

theorem observeSmallest_bound (cur : Option Int) (t : Int) :
    ∃ m, observeSmallest cur t = some m ∧ m ≤ t ∧ ∀ m0, cur = some m0 → m ≤ m0 := by
  cases cur with
  | none =>
    refine ⟨t, rfl, le_refl t, ?_⟩
    intro m0 h
    cases h
  | some m0 =>
    by_cases h : m0 > t
    · refine ⟨t, by simp [observeSmallest, h], le_refl t, ?_⟩
      intro m1 hm
      injection hm with hm
      subst hm
      exact le_of_lt h
    · refine ⟨m0, by simp [observeSmallest, h], le_of_not_lt h, ?_⟩
      intro m1 hm
      injection hm with hm
      subst hm
      exact le_refl m0

theorem observeLargest_bound (cur : Option Int) (t : Int) :
    ∃ M, observeLargest cur t = some M ∧ t ≤ M ∧ ∀ M0, cur = some M0 → M0 ≤ M := by
  cases cur with
  | none =>
    refine ⟨t, rfl, le_refl t, ?_⟩
    intro M0 h
    cases h
  | some M0 =>
    by_cases h : M0 < t
    · refine ⟨t, by simp [observeLargest, h], le_refl t, ?_⟩
      intro M1 hm
      injection hm with hm
      subst hm
      exact le_of_lt h
    · refine ⟨M0, by simp [observeLargest, h], le_of_not_lt h, ?_⟩
      intro M1 hm
      injection hm with hm
      subst hm
      exact le_refl M0

/-- Every span's start timestamp lies between the tracked minimum and
maximum observed timestamps. -/
def OriginInv (st : IngestState) : Prop :=
  ∀ p ∈ st.spans, ∀ q ∈ p.2, ∃ m M,
    st.smallestStartAt = some m ∧ st.largestEndAt = some M ∧
    m ≤ Span.startAt q.2 ∧ Span.startAt q.2 ≤ M

theorem originInv_ingest (st : IngestState) (e : LogEvent) (h : OriginInv st) :
    OriginInv (ingestEvent st e) := by
  obtain ⟨m2, hm2, hm2t, hm2mono⟩ := observeSmallest_bound st.smallestStartAt e.timestamp
  obtain ⟨M2, hM2, hM2t, hM2mono⟩ := observeLargest_bound st.largestEndAt e.timestamp
  intro p hp q hq
  rw [ingestEvent_spans] at hp
  refine ⟨m2, M2, hm2, hM2, ?_⟩
  rcases recordConn_mem e.connectionId e.requestId e st.spans p q hp hq with
    hcr | ⟨pOld, qOld, hpo, hqo, hup⟩ | ⟨pOld, hpo, hmem⟩
  · rw [hcr]
    exact ⟨hm2t, hM2t⟩
  · obtain ⟨m, M, hsm, hlM, hb1, hb2⟩ := h pOld hpo qOld hqo
    rw [hup, Span.update_startAt]
    exact ⟨le_trans (hm2mono m hsm) hb1, le_trans hb2 (hM2mono M hlM)⟩
  · obtain ⟨m, M, hsm, hlM, hb1, hb2⟩ := h pOld hpo q hmem
    exact ⟨le_trans (hm2mono m hsm) hb1, le_trans hb2 (hM2mono M hlM)⟩

theorem originInv_runEventsFrom (es : List LogEvent) (st : IngestState)
    (h : OriginInv st) : OriginInv (runEventsFrom st es) := by
  induction es generalizing st with
  | nil => exact h
  | cons e es ih =>
    rw [runEventsFrom_cons]
    exact ih (ingestEvent st e) (originInv_ingest st e h)

theorem originInv_runEvents (es : List LogEvent) : OriginInv (runEvents es) := by
  refine originInv_runEventsFrom es initialState ?_
  intro p hp
  simp [initialState] at hp

/-! ## Arithmetic facts about the report computations -/

theorem timestampMillis_mono {a b : Int} (h : a ≤ b) :
    timestampMillis a ≤ timestampMillis b := by
  rw [timestampMillis, timestampMillis,
    Int.fdiv_eq_ediv _ (by norm_num : (0 : Int) ≤ 1000000),
    Int.fdiv_eq_ediv _ (by norm_num : (0 : Int) ≤ 1000000)]
  exact Int.ediv_le_ediv (by norm_num) h

theorem saturatingSub_nonneg {a b : Int} (h : b ≤ a) : 0 ≤ saturatingSub a b := by
  simp only [saturatingSub]
  have h1 : (0 : Int) ≤ a - b := sub_nonneg.mpr h
  have h2 : (0 : Int) ≤ i64Max := by simp only [i64Max]; norm_num
  exact le_max_of_le_left (le_min h1 h2)

theorem saturatingSub_mono_left {a1 a2 b : Int} (h : a1 ≤ a2) :
    saturatingSub a1 b ≤ saturatingSub a2 b := by
  simp only [saturatingSub]
  exact max_le_max (min_le_min_right _ (sub_le_sub_right h b)) (le_refl _)

theorem spanRow_connectionId (sm : Int) (cid : String) (rid : Nat) (s : Span) :
    (spanRow sm cid rid s).connectionId = cid := rfl

theorem spanRow_requestId (sm : Int) (cid : String) (rid : Nat) (s : Span) :
    (spanRow sm cid rid s).requestId = rid := rfl

theorem spanRow_status (sm : Int) (cid : String) (rid : Nat) (s : Span) :
    (spanRow sm cid rid s).status = s.status := rfl

theorem spanRow_statusFamily (sm : Int) (cid : String) (rid : Nat) (s : Span) :
    (spanRow sm cid rid s).statusFamily = statusFamily s.status := rfl

theorem spanRow_startAt (sm : Int) (cid : String) (rid : Nat) (s : Span) :
    (spanRow sm cid rid s).startAt
      = saturatingSub (timestampMillis s.startAt) sm := rfl

theorem mem_reportRows (st : IngestState) (row : Row)
    (h : row ∈ reportRows st) :
    ∃ p, p ∈ st.spans ∧ ∃ q, q ∈ p.2 ∧
      row = spanRow ((st.smallestStartAt.map timestampMillis).getD 0) p.1 q.1 q.2 := by
  simp only [reportRows, List.mem_flatMap, List.mem_map] at h
  obtain ⟨p, hp, q, hq, hrow⟩ := h
  exact ⟨p, hp, q, hq, hrow.symm⟩

/-! ## Claims C8 and C10 -/

/-- C8: for every input and every emitted row, the normalized start offset
(span start in milliseconds minus the tracked minimum, via `saturating_sub`)
is at least 0 and at most the total timeline duration (tracked maximum
minus tracked minimum, as substituted for the end-of-timeline slot). -/
theorem C8_normalized_offsets_bounded (es : List LogEvent) (row : Row)
    (h : row ∈ reportRows (runEvents es)) :
    0 ≤ row.startAt ∧ row.startAt ≤ reportEndAt (runEvents es) := by
  obtain ⟨p, hp, q, hq, hrow⟩ := mem_reportRows _ _ h
  obtain ⟨m, M, hsm, hlM, hb1, hb2⟩ := originInv_runEvents es p hp q hq
  subst hrow
  rw [spanRow_startAt, hsm]
  simp only [Option.map_some', Option.getD_some]
  constructor
  · exact saturatingSub_nonneg (timestampMillis_mono hb1)
  · simp only [reportEndAt, hsm, hlM, Option.map_some', Option.getD_some]
    exact saturatingSub_mono_left (timestampMillis_mono hb2)

theorem C8_witness :
    (⟨"c1", 1, none, 0, "GET", "", "", "", "", 0, 0⟩ : Row)
        ∈ reportRows (runEvents [⟨0, "c1", 1, "GET", "u", none, none, none⟩])
    ∧ 0 ≤ (⟨"c1", 1, none, 0, "GET", "", "", "", "", 0, 0⟩ : Row).startAt
    ∧ (⟨"c1", 1, none, 0, "GET", "", "", "", "", 0, 0⟩ : Row).startAt
        ≤ reportEndAt (runEvents [⟨0, "c1", 1, "GET", "u", none, none, none⟩]) :=
  ⟨by decide,
    (C8_normalized_offsets_bounded [⟨0, "c1", 1, "GET", "u", none, none, none⟩]
      ⟨"c1", 1, none, 0, "GET", "", "", "", "", 0, 0⟩ (by decide)).1,
    (C8_normalized_offsets_bounded [⟨0, "c1", 1, "GET", "u", none, none, none⟩]
      ⟨"c1", 1, none, 0, "GET", "", "", "", "", 0, 0⟩ (by decide)).2⟩

/-- C10: in every emitted row, any recorded status value is at most 255
(the span store keeps the status in an 8-bit unsigned integer) and the
status family is at most 2; no input can produce a row with status family
3, 4 or 5. -/
theorem C10_status_family_bounded (es : List LogEvent) (row : Row)
    (h : row ∈ reportRows (runEvents es)) :
    (∀ v, row.status = some v → v ≤ 255)
    ∧ row.statusFamily ≤ 2
    ∧ row.statusFamily ≠ 3 ∧ row.statusFamily ≠ 4 ∧ row.statusFamily ≠ 5 := by
  obtain ⟨p, hp, q, hq, hrow⟩ := mem_reportRows _ _ h
  have hb := statusBounded_runEvents es p hp q hq
  subst hrow
  rw [spanRow_status, spanRow_statusFamily]
  have hfam : statusFamily (Span.status q.2) ≤ 2 := by
    cases hst : Span.status q.2 with
    | none => simp [statusFamily]
    | some v =>
      have hv := hb v hst
      simp only [statusFamily]
      by_cases h0 : 0 < v
      · rw [if_pos h0]
        exact le_trans (Nat.div_le_div_right hv) (by norm_num)
      · rw [if_neg h0]
        exact Nat.zero_le 2
  refine ⟨fun v hv => hb v hv, hfam, by omega, by omega, by omega⟩

theorem C10_witness :
    (⟨"c1", 1, some 200, 2, "GET", "", "", "", "34", 0, 150⟩ : Row)
        ∈ reportRows (runEvents [⟨0, "c1", 1, "GET", "u", none, none, none⟩,
          ⟨150000000, "c1", 1, "GET", "u", none, some 200, some "34"⟩])
    ∧ (∀ v, (⟨"c1", 1, some 200, 2, "GET", "", "", "", "34", 0, 150⟩ : Row).status
          = some v → v ≤ 255)
    ∧ (⟨"c1", 1, some 200, 2, "GET", "", "", "", "34", 0, 150⟩ : Row).statusFamily
        ≤ 2 :=
  ⟨by decide,
    (C10_status_family_bounded [⟨0, "c1", 1, "GET", "u", none, none, none⟩,
        ⟨150000000, "c1", 1, "GET", "u", none, some 200, some "34"⟩]
      ⟨"c1", 1, some 200, 2, "GET", "", "", "", "34", 0, 150⟩ (by decide)).1,
    (C10_status_family_bounded [⟨0, "c1", 1, "GET", "u", none, none, none⟩,
        ⟨150000000, "c1", 1, "GET", "u", none, some 200, some "34"⟩]
      ⟨"c1", 1, some 200, 2, "GET", "", "", "", "34", 0, 150⟩ (by decide)).2.1⟩

/-! ## Claim C9: end-to-end two-line scenario -/

/-- C9: two matched lines for connection `c1`, request 1 — the first at T0
(2024-01-15T10:00:00.000Z) with method GET, uri `https://a.example/x`,
request size `12`; the second at T0 + 150 ms with status 200 and response
size `34` — produce exactly one row: status 200, status family 2, duration
150 ms, request size `12`, response size `34`, host `a.example`, path `/x`,
at normalized start offset 0. -/
theorem C9_end_to_end :
    (runLines initialState
        [some ⟨⟨2024, 1, 15, 10, 0, 0, 0⟩, "c1", 1, "GET",
          "https://a.example/x", some "12", none, none⟩,
         some ⟨⟨2024, 1, 15, 10, 0, 0, 150000000⟩, "c1", 1, "GET",
          "https://a.example/x", none, some 200, some "34"⟩]).map reportRows
      = Except.ok
          [⟨"c1", 1, some 200, 2, "GET", "a.example", "/x", "12", "34", 0, 150⟩] :=
  rfl

/-! ## Claim C7: deterministic row ordering -/

/-- The natural order on composite span keys: lexicographic on the
connection string, then numeric on the request id. -/
def keyLt (a b : String × Nat) : Prop :=
  strLt a.1 b.1 = true ∨ (a.1 = b.1 ∧ a.2 < b.2)

theorem keyLt_irrefl (a : String × Nat) : ¬ keyLt a a := by
  rintro (h | ⟨h1, h2⟩)
  · rw [strLt_irrefl] at h
    cases h
  · exact lt_irrefl _ h2

theorem keyLt_asymm {a b : String × Nat} (h1 : keyLt a b) (h2 : keyLt b a) :
    False := by
  rcases h1 with h1 | ⟨he1, hl1⟩
  · rcases h2 with h2 | ⟨he2, hl2⟩
    · exact strLt_asymm h1 h2
    · rw [he2] at h1
      rw [strLt_irrefl] at h1
      cases h1
  · rcases h2 with h2 | ⟨he2, hl2⟩
    · rw [he1] at h2
      rw [strLt_irrefl] at h2
      cases h2
    · exact lt_irrefl _ (lt_trans hl1 hl2)

def rowKeys (st : Store) : List (String × Nat) :=
  st.flatMap fun p => p.2.map fun q => (p.1, q.1)

theorem rowKeys_nil : rowKeys [] = [] := rfl

theorem rowKeys_cons (p : String × ConnSpans) (rest : Store) :
    rowKeys (p :: rest) = (p.2.map fun q => (p.1, q.1)) ++ rowKeys rest := by
  simp [rowKeys]

theorem rowKeys_fst_mem {st : Store} {x : String × Nat} (h : x ∈ rowKeys st) :
    x.1 ∈ st.map Prod.fst := by
  simp only [rowKeys, List.mem_flatMap, List.mem_map] at h
  obtain ⟨p, hp, q, hq, hx⟩ := h
  rw [← hx]
  exact List.mem_map_of_mem Prod.fst hp

theorem rowKeys_pairwise (s : Store) :
    Store.Ordered s → (rowKeys s).Pairwise keyLt := by
  induction s with
  | nil =>
    intro _
    simp [rowKeys_nil]
  | cons p rest ih =>
    intro h
    obtain ⟨kq, inner⟩ := p
    obtain ⟨houter, hinner⟩ := h
    rw [List.pairwise_cons] at houter
    obtain ⟨hall, hrest⟩ := houter
    rw [rowKeys_cons, List.pairwise_append]
    refine ⟨?_, ?_, ?_⟩
    · rw [List.pairwise_map]
      have hin : ConnSpans.Ordered inner := hinner (kq, inner) (List.mem_cons_self _ _)
      rw [ConnSpans.Ordered] at hin
      exact hin.imp fun hab => Or.inr ⟨rfl, hab⟩
    · exact ih ⟨hrest, fun p2 hp2 => hinner p2 (List.mem_cons_of_mem _ hp2)⟩
    · intro a ha b hb
      obtain ⟨q, hq, hx⟩ := List.mem_map.mp ha
      have hb1 := rowKeys_fst_mem hb
      obtain ⟨p2, hp2, hfst⟩ := List.mem_map.mp hb1
      left
      rw [← hx]
      rw [← hfst]
      exact hall p2 hp2

theorem rowKeys_nodup (s : Store) (h : Store.Ordered s) : (rowKeys s).Nodup := by
  have hp := rowKeys_pairwise s h
  refine hp.imp ?_
  intro a b hab heq
  subst heq
  exact keyLt_irrefl a hab

theorem mem_map_recordRequest (k : String) (rid : Nat) (e : LogEvent)
    (l : ConnSpans) (x : String × Nat) :
    x ∈ (recordRequest rid e l).map (fun q => (k, q.1)) ↔
      x = (k, rid) ∨ x ∈ l.map fun q => (k, q.1) := by
  constructor
  · intro h
    obtain ⟨q, hq, hx⟩ := List.mem_map.mp h
    have h2 : q.1 ∈ (recordRequest rid e l).map Prod.fst :=
      List.mem_map_of_mem Prod.fst hq
    rcases (recordRequest_keys rid e l q.1).mp h2 with heq | hmem
    · left
      rw [← hx, heq]
    · right
      obtain ⟨q2, hq2, hfst⟩ := List.mem_map.mp hmem
      refine List.mem_map.mpr ⟨q2, hq2, ?_⟩
      rw [← hx, hfst]
  · intro h
    rcases h with rfl | hmem
    · have hk : rid ∈ (recordRequest rid e l).map Prod.fst :=
        (recordRequest_keys rid e l rid).mpr (Or.inl rfl)
      obtain ⟨q, hq, hfst⟩ := List.mem_map.mp hk
      exact List.mem_map.mpr ⟨q, hq, by rw [hfst]⟩
    · obtain ⟨q, hq, hx⟩ := List.mem_map.mp hmem
      have hk : q.1 ∈ (recordRequest rid e l).map Prod.fst :=
        (recordRequest_keys rid e l q.1).mpr (Or.inr (List.mem_map_of_mem Prod.fst hq))
      obtain ⟨q2, hq2, hfst⟩ := List.mem_map.mp hk
      refine List.mem_map.mpr ⟨q2, hq2, ?_⟩
      rw [hfst, ← hx]

theorem rowKeys_recordConn (cid : String) (rid : Nat) (e : LogEvent) (s : Store)
    (x : String × Nat) :
    x ∈ rowKeys (recordConn cid rid e s) ↔ x = (cid, rid) ∨ x ∈ rowKeys s := by
  induction s with
  | nil =>
    rw [recordConn_nil, rowKeys_cons, rowKeys_nil]
    simp
  | cons p rest ih =>
    obtain ⟨kq, inner⟩ := p
    rw [recordConn_cons]
    by_cases h1 : strLt cid kq = true
    · rw [if_pos h1]
      rw [rowKeys_cons, rowKeys_cons]
      simp only [List.mem_append, List.map_cons, List.map_nil, List.mem_singleton]
    · by_cases h2 : cid = kq
      · rw [if_neg h1, if_pos h2]
        subst h2
        rw [rowKeys_cons, rowKeys_cons]
        simp only [List.mem_append, mem_map_recordRequest]
        tauto
      · rw [if_neg h1, if_neg h2]
        rw [rowKeys_cons, rowKeys_cons]
        simp only [List.mem_append, ih]
        tauto

theorem rowKeys_runEventsFrom (es : List LogEvent) (st : IngestState)
    (x : String × Nat) :
    x ∈ rowKeys (runEventsFrom st es).spans ↔
      x ∈ rowKeys st.spans ∨ ∃ e, e ∈ es ∧ x = (e.connectionId, e.requestId) := by
  induction es generalizing st with
  | nil => simp [runEventsFrom_nil]
  | cons e es ih =>
    rw [runEventsFrom_cons, ih]
    rw [ingestEvent_spans, rowKeys_recordConn]
    simp only [List.mem_cons]
    constructor
    · rintro ((rfl | hx) | ⟨e2, he2, hxe⟩)
      · exact Or.inr ⟨e, Or.inl rfl, rfl⟩
      · exact Or.inl hx
      · exact Or.inr ⟨e2, Or.inr he2, hxe⟩
    · rintro (hx | ⟨e2, rfl | he2, hxe⟩)
      · exact Or.inl (Or.inr hx)
      · exact Or.inl (Or.inl hxe)
      · exact Or.inr ⟨e2, he2, hxe⟩

theorem reportRows_keys (st : IngestState) :
    (reportRows st).map (fun row => (row.connectionId, row.requestId))
      = rowKeys st.spans := by
  simp only [reportRows, rowKeys, List.map_flatMap, List.map_map]
  rfl

/-- C7: the sequence of (connection id, request id) keys of the emitted
rows is strictly sorted by the natural composite order — lexicographic on
the connection string, then numeric on the request id — and is identical
for any two inputs whose matched events are permutations of each other:
arrival order never affects it. -/
theorem C7_row_order_deterministic (es es2 : List LogEvent) (h : es.Perm es2) :
    (((reportRows (runEvents es)).map
        fun row => (row.connectionId, row.requestId)).Pairwise keyLt)
    ∧ ((reportRows (runEvents es)).map
        fun row => (row.connectionId, row.requestId))
      = ((reportRows (runEvents es2)).map
        fun row => (row.connectionId, row.requestId)) := by
  rw [reportRows_keys, reportRows_keys]
  have hord1 := runEvents_ordered es
  have hord2 := runEvents_ordered es2
  have hpw1 := rowKeys_pairwise _ hord1
  have hpw2 := rowKeys_pairwise _ hord2
  refine ⟨hpw1, ?_⟩
  have hnd1 := rowKeys_nodup _ hord1
  have hnd2 := rowKeys_nodup _ hord2
  have hmem : ∀ x, x ∈ rowKeys (runEvents es).spans ↔
      x ∈ rowKeys (runEvents es2).spans := by
    intro x
    rw [runEvents, runEvents, rowKeys_runEventsFrom, rowKeys_runEventsFrom]
    constructor
    · rintro (hx | ⟨e, he, hxe⟩)
      · exact Or.inl hx
      · exact Or.inr ⟨e, h.mem_iff.mp he, hxe⟩
    · rintro (hx | ⟨e, he, hxe⟩)
      · exact Or.inl hx
      · exact Or.inr ⟨e, h.mem_iff.mpr he, hxe⟩
  have hperm : (rowKeys (runEvents es).spans).Perm (rowKeys (runEvents es2).spans) :=
    (List.perm_ext_iff_of_nodup hnd1 hnd2).mpr hmem
  haveI : IsAntisymm (String × Nat) keyLt :=
    ⟨fun a b hab hba => (keyLt_asymm hab hba).elim⟩
  exact List.eq_of_perm_of_sorted hperm hpw1 hpw2

theorem C7_witness :
    ([⟨0, "c2", 1, "GET", "u", none, none, none⟩,
      ⟨5, "c1", 2, "GET", "u", none, none, none⟩] : List LogEvent).Perm
      [⟨5, "c1", 2, "GET", "u", none, none, none⟩,
       ⟨0, "c2", 1, "GET", "u", none, none, none⟩]
    ∧ ((((reportRows (runEvents [⟨0, "c2", 1, "GET", "u", none, none, none⟩,
          ⟨5, "c1", 2, "GET", "u", none, none, none⟩])).map
          fun row => (row.connectionId, row.requestId)).Pairwise keyLt)
      ∧ ((reportRows (runEvents [⟨0, "c2", 1, "GET", "u", none, none, none⟩,
          ⟨5, "c1", 2, "GET", "u", none, none, none⟩])).map
          fun row => (row.connectionId, row.requestId))
        = ((reportRows (runEvents [⟨5, "c1", 2, "GET", "u", none, none, none⟩,
          ⟨0, "c2", 1, "GET", "u", none, none, none⟩])).map
          fun row => (row.connectionId, row.requestId))) :=
  ⟨by decide, C7_row_order_deterministic _ _ (by decide)⟩
